import Mathlib

/-!
Verification of the `pkg/crypto/password_hash.go` core of the zenith repository.

Go strings and byte slices are both modelled as `List Nat` of byte values
(every string manipulated by this module is ASCII).  The external Argon2id
key-derivation function `argon2.IDKey` is modelled as an explicit function
parameter of type `KDF`; the random source behind `crypto/rand.Read` is
modelled as an entropy stream `Nat → Nat`.  Go standard-library helpers used
by the module (`strings.Split`, `fmt.Sscanf` on the two fixed formats,
`base64.StdEncoding`, `crypto/subtle.ConstantTimeCompare`) are embedded
directly below.  Machine integers are `Nat` with explicit `% 2 ^ 32`
truncation where the Go code converts with `uint32(...)`.
-/

namespace Zenith

/-- ASCII byte values of a string literal. -/
def ascii (s : String) : List Nat := s.data.map Char.toNat

/-- Auxiliary fuel-driven decimal printer: most-significant digit first. -/
def natCharsAux : Nat → Nat → List Nat
  | 0, _ => []
  | _ + 1, 0 => []
  | fuel + 1, n + 1 => natCharsAux fuel ((n + 1) / 10) ++ [48 + (n + 1) % 10]

/-- Decimal digit bytes of `n`, as Go `fmt`'s `%d` prints an unsigned integer. -/
def natChars (n : Nat) : List Nat :=
  if n = 0 then [48] else natCharsAux n n

/-- Whether a byte is an ASCII decimal digit. -/
def isDigitByte (b : Nat) : Bool := 48 ≤ b && b ≤ 57

/-- Value of a big-endian list of decimal digit values. -/
def evalDigits (l : List Nat) : Nat := l.foldl (fun a d => 10 * a + d) 0

/-- Scanning a decimal number as `fmt`'s `%d` does: the longest leading digit
run is consumed; scanning fails when no digit is present. -/
def parseDigits (s : List Nat) : Option (Nat × List Nat) :=
  if s.takeWhile isDigitByte = [] then none
  else some (evalDigits ((s.takeWhile isDigitByte).map (fun c => c - 48)),
    s.dropWhile isDigitByte)

/-- `fmt.Sscanf(s, "v=%d", &version)` with a signed `int` target: the literal
prefix `v=` must match, then an optionally signed decimal is scanned and
range-checked against 64-bit `int` — Go's scanner fails with an error on
values outside `[-2 ^ 63, 2 ^ 63 - 1]`; input remaining after the number is
ignored by `Sscanf`.  (The `%d` verb's leading-whitespace skipping is not
modelled: that only makes the model stricter, and no string this module
produces contains whitespace.) -/
def scanVersion (s : List Nat) : Option Int :=
  match s with
  | 118 :: 61 :: 45 :: rest =>
    (parseDigits rest).bind (fun x => if x.1 ≤ 2 ^ 63 then some (-(x.1 : Int)) else none)
  | 118 :: 61 :: 43 :: rest =>
    (parseDigits rest).bind (fun x => if x.1 < 2 ^ 63 then some ((x.1 : Int)) else none)
  | 118 :: 61 :: rest =>
    (parseDigits rest).bind (fun x => if x.1 < 2 ^ 63 then some ((x.1 : Int)) else none)
  | _ => none

/-- `fmt.Sscanf(s, "m=%d,t=%d,p=%d", &a.Memory, &a.Time, &a.Threads)` where
`Memory` and `Time` are `uint32` and `Threads` is `uint8`: literals must
match, each number is an unsigned decimal, and Go's scanner range-checks
unsigned targets (returning an error on overflow or on a sign).  (As in
`scanVersion`, `%d`'s leading-whitespace skipping is not modelled.) -/
def scanParams (s : List Nat) : Option (Nat × Nat × Nat) :=
  match s with
  | 109 :: 61 :: r1 =>
    match parseDigits r1 with
    | none => none
    | some (m, r2) =>
      if m < 2 ^ 32 then
        match r2 with
        | 44 :: 116 :: 61 :: r3 =>
          match parseDigits r3 with
          | none => none
          | some (t, r4) =>
            if t < 2 ^ 32 then
              match r4 with
              | 44 :: 112 :: 61 :: r5 =>
                match parseDigits r5 with
                | none => none
                | some (p, _) => if p < 2 ^ 8 then some (m, t, p) else none
              | _ => none
            else none
        | _ => none
      else none
  | _ => none

/-- Standard base64 alphabet, index (0..63) to ASCII byte. -/
def b64Char (i : Nat) : Nat :=
  if i < 26 then 65 + i
  else if i < 52 then 97 + (i - 26)
  else if i < 62 then 48 + (i - 52)
  else if i = 62 then 43
  else 47

/-- Position of an ASCII byte in the standard base64 alphabet. -/
def b64Index (c : Nat) : Option Nat :=
  if 65 ≤ c ∧ c ≤ 90 then some (c - 65)
  else if 97 ≤ c ∧ c ≤ 122 then some (26 + (c - 97))
  else if 48 ≤ c ∧ c ≤ 57 then some (52 + (c - 48))
  else if c = 43 then some 62
  else if c = 47 then some 63
  else none

/-- `base64.StdEncoding.EncodeToString`: standard alphabet, `=` padding,
no line breaks. -/
def encodeB64 : List Nat → List Nat
  | [] => []
  | [b1] => [b64Char (b1 / 4), b64Char (b1 % 4 * 16), 61, 61]
  | [b1, b2] => [b64Char (b1 / 4), b64Char (b1 % 4 * 16 + b2 / 16), b64Char (b2 % 16 * 4), 61]
  | b1 :: b2 :: b3 :: rest =>
    b64Char (b1 / 4) :: b64Char (b1 % 4 * 16 + b2 / 16) ::
      b64Char (b2 % 16 * 4 + b3 / 64) :: b64Char (b3 % 64) :: encodeB64 rest

/-- `base64.StdEncoding.DecodeString`: input must be a sequence of 4-byte
quanta over the standard alphabet, with `=` padding only terminating the
final quantum; like Go's default (non-strict) decoder, non-zero trailing
bits in a padded final quantum are ignored.  (Go additionally skips `\r`
and `\n`, which never occur in the strings this module produces.) -/
def decodeB64 : List Nat → Option (List Nat)
  | [] => some []
  | a :: b :: c :: d :: rest =>
    match b64Index a, b64Index b with
    | some x, some y =>
      if c = 61 then
        if d = 61 ∧ rest = [] then some [x * 4 + y / 16] else none
      else
        match b64Index c with
        | some z =>
          if d = 61 then
            if rest = [] then some [x * 4 + y / 16, y % 16 * 16 + z / 4] else none
          else
            match b64Index d with
            | some w =>
              match decodeB64 rest with
              | some bs =>
                some ((x * 4 + y / 16) :: (y % 16 * 16 + z / 4) :: (z % 4 * 64 + w) :: bs)
              | none => none
            | none => none
        | none => none
    | _, _ => none
  | _ => none

/-- `strings.Split(s, "$")` for a one-byte separator `d`. -/
def splitOn (d : Nat) : List Nat → List (List Nat)
  | [] => [[]]
  | b :: rest =>
    match splitOn d rest with
    | [] => [[b]]
    | h :: t => if b = d then [] :: h :: t else (b :: h) :: t

/-- `strings.Join(fields, "$")`: the inverse image used to describe encoded
strings field by field. -/
def joinDollar : List (List Nat) → List Nat
  | [] => []
  | [f] => f
  | f :: rest => f ++ 36 :: joinDollar rest

/-- Error values of `pkg/errormessage` (and of the standard-library calls the
module propagates): `ErrParamsScan` stands for the `fmt.Sscanf` error on the
cost-parameter section, `ErrInvalidBase64` for `base64.CorruptInputError`. -/
inductive GoError where
  | ErrInvalidSaltLength
  | ErrInvalidEncodedHash
  | ErrIncompatibleArgon2Version
  | ErrParamsScan
  | ErrInvalidBase64
  deriving DecidableEq

/-- The `Argon2IdHash` parameter struct; all fields are machine unsigned
integers in Go (`uint32` except `Threads : uint8`), modelled as `Nat`. -/
structure Argon2IdHash where
  Time : Nat
  Memory : Nat
  Threads : Nat
  KeyLen : Nat
  SaltLen : Nat
  deriving DecidableEq

/-- `DefaultArgon2IDHash = &Argon2IdHash{Time: 2, Memory: 19 * 1024, Threads: 1,
KeyLen: 32, SaltLen: 32}`. -/
def DefaultArgon2IDHash : Argon2IdHash :=
  ⟨2, 19 * 1024, 1, 32, 32⟩

/-- `Argon2Version = argon2.Version` (the library constant `0x13`). -/
def Argon2Version : Nat := 19

/-- Type of the external key-derivation function `argon2.IDKey`:
password, salt, time, memory, threads, keyLen ↦ digest bytes. -/
abbrev KDF := List Nat → List Nat → Nat → Nat → Nat → Nat → List Nat

/-- `generateBytes` backed by `crypto/rand.Read`, modelled with an explicit
entropy stream: on success Go fills exactly `length` bytes. -/
def generateBytes (length : Nat) (entropy : Nat → Nat) : List Nat :=
  (List.range length).map (fun i => entropy i % 256)

/-- `validateSaltLength(salt, expectedSaltLen)`: note that the Go code
compares `uint32(len(salt))`, truncating the length to 32 bits. -/
def validateSaltLength (salt : List Nat) (expectedSaltLen : Nat) : Option GoError :=
  if 0 < salt.length ∧ salt.length % 2 ^ 32 ≠ expectedSaltLen then
    some .ErrInvalidSaltLength
  else none

/-- The `v=%d` field printed by `encodeHashComponents`. -/
def vField : List Nat := 118 :: 61 :: natChars Argon2Version

/-- The `m=%d,t=%d,p=%d` field printed by `encodeHashComponents`. -/
def mtpField (a : Argon2IdHash) : List Nat :=
  109 :: 61 :: (natChars a.Memory ++
    44 :: 116 :: 61 :: (natChars a.Time ++ 44 :: 112 :: 61 :: natChars a.Threads))

/-- `fmt.Sprintf("$argon2id$v=%d$m=%d,t=%d,p=%d$%s$%s", Argon2Version, a.Memory,
a.Time, a.Threads, base64Salt, base64Hash)`, written as the `$`-join of its six
fields (byte-for-byte the same string). -/
def encodeHashComponents (salt hash : List Nat) (a : Argon2IdHash) : List Nat :=
  joinDollar [[], ascii "argon2id", vField, mtpField a, encodeB64 salt, encodeB64 hash]

/-- `(a *Argon2IdHash) GenerateHash(password, salt)`, with the key-derivation
function and the entropy stream passed explicitly. -/
def GenerateHash (idKey : KDF) (a : Argon2IdHash) (password salt : List Nat)
    (entropy : Nat → Nat) : Except GoError (List Nat) :=
  match validateSaltLength salt a.SaltLen with
  | some err => .error err
  | none =>
    let s := if salt.length = 0 then generateBytes a.SaltLen entropy else salt
    let hash := idKey password s a.Time a.Memory a.Threads a.KeyLen
    .ok (encodeHashComponents s hash a)

/-- `GenerateHash` instrumented with a counter of `argon2.IDKey` invocations,
to state that failing calls perform no derivation work. -/
def GenerateHashCount (idKey : KDF) (a : Argon2IdHash) (password salt : List Nat)
    (entropy : Nat → Nat) : Except GoError (List Nat) × Nat :=
  match validateSaltLength salt a.SaltLen with
  | some err => (.error err, 0)
  | none =>
    let s := if salt.length = 0 then generateBytes a.SaltLen entropy else salt
    let hash := idKey password s a.Time a.Memory a.Threads a.KeyLen
    (.ok (encodeHashComponents s hash a), 1)

/-- Body of `decodeHash` after the six-way split: sequentially scan the
version, the cost parameters, the salt and the digest.  `SaltLen` and
`KeyLen` are set with `uint32(len(...))`, hence the `% 2 ^ 32`. -/
def decodeFields (v2 v3 v4 v5 : List Nat) :
    Except GoError (Argon2IdHash × List Nat × List Nat) :=
  match scanVersion v2 with
  | none => .error .ErrIncompatibleArgon2Version
  | some _ =>
    match scanParams v3 with
    | none => .error .ErrParamsScan
    | some (m, t, p) =>
      match decodeB64 v4 with
      | none => .error .ErrInvalidBase64
      | some salt =>
        match decodeB64 v5 with
        | none => .error .ErrInvalidBase64
        | some hash =>
          .ok (⟨t, m, p, hash.length % 2 ^ 32, salt.length % 2 ^ 32⟩, salt, hash)

/-- `decodeHash(encodedHash)`: split on `$`, require exactly six fields (the
first two — the empty leading field and the scheme tag — are never inspected
by the Go code), then decode the remaining four. -/
def decodeHash (encodedHash : List Nat) :
    Except GoError (Argon2IdHash × List Nat × List Nat) :=
  match splitOn 36 encodedHash with
  | [_, _, v2, v3, v4, v5] => decodeFields v2 v3 v4 v5
  | _ => .error .ErrInvalidEncodedHash

/-- `crypto/subtle.ConstantTimeCompare`: 0 on length mismatch, otherwise the
or-accumulation of byte xors over the whole buffers, 1 iff that is zero. -/
def constantTimeCompare (x y : List Nat) : Nat :=
  if x.length ≠ y.length then 0
  else if (x.zip y).foldl (fun v p => v ||| (p.1 ^^^ p.2)) 0 = 0 then 1 else 0

/-- `constantTimeCompare` instrumented with a cost counter: one unit per loop
iteration, modelling the running time of the comparison loop. -/
def constantTimeCompareCost (x y : List Nat) : Nat × Nat :=
  if x.length ≠ y.length then (0, 0)
  else
    let r := (x.zip y).foldl (fun acc p => (acc.1 ||| (p.1 ^^^ p.2), acc.2 + 1)) (0, 0)
    (if r.1 = 0 then 1 else 0, r.2)

/-- `VerifyHash(password, encodedHash)`, with the key-derivation function
passed explicitly. -/
def VerifyHash (idKey : KDF) (password encodedHash : List Nat) :
    Bool × Option GoError :=
  match decodeHash encodedHash with
  | .error err => (false, some err)
  | .ok (a, salt, hash) =>
    let otherHash := idKey password salt a.Time a.Memory a.Threads a.KeyLen
    if constantTimeCompare hash otherHash = 1 then (true, none) else (false, none)

/-- `golang.org/x/crypto/argon2.deriveKey` (not repository code) begins with
explicit guards that panic when `time < 1` or `threads < 1`; this predicate
records exactly those out-of-range conditions. -/
def argon2PanicsOnParams (time threads : Nat) : Bool :=
  time < 1 || threads < 1

/-- A concrete executable stand-in key-derivation function used to instantiate
the abstract `KDF` parameter in witnesses: deterministic, returns exactly
`keyLen` bytes, each below 256. -/
def toyKDF : KDF := fun password salt time memory threads keyLen =>
  (List.range keyLen).map (fun i =>
    (password.foldl (fun a b => 31 * a + b) 7 +
      salt.foldl (fun a b => 37 * a + b) 11 * (i + 1) +
      time + memory + threads + i) % 256)

deriving instance DecidableEq for Except

lemma evalDigits_append (l : List Nat) (d : Nat) :
    evalDigits (l ++ [d]) = 10 * evalDigits l + d := by
  simp [evalDigits, List.foldl_append]

lemma natCharsAux_zero (fuel : Nat) : natCharsAux fuel 0 = [] := by
  cases fuel <;> rfl

lemma natCharsAux_spec :
    ∀ fuel n : Nat, 0 < n → n ≤ fuel →
      (∀ c ∈ natCharsAux fuel n, 48 ≤ c ∧ c ≤ 57) ∧
      evalDigits ((natCharsAux fuel n).map (fun c => c - 48)) = n ∧
      natCharsAux fuel n ≠ [] := by
  intro fuel
  induction fuel with
  | zero => intro n h1 h2; omega
  | succ fuel ih =>
    intro n h1 h2
    obtain ⟨m, rfl⟩ : ∃ m, n = m + 1 := ⟨n - 1, by omega⟩
    have heq : natCharsAux (fuel + 1) (m + 1) =
        natCharsAux fuel ((m + 1) / 10) ++ [48 + (m + 1) % 10] := rfl
    rw [heq]
    rcases Nat.eq_zero_or_pos ((m + 1) / 10) with hq | hq
    · rw [hq, natCharsAux_zero]
      refine ⟨?_, ?_, by simp⟩
      · intro c hc
        simp at hc
        omega
      · simp [evalDigits]
        omega
    · obtain ⟨hb, he, _⟩ := ih ((m + 1) / 10) hq (by omega)
      refine ⟨?_, ?_, by simp⟩
      · intro c hc
        rw [List.mem_append] at hc
        rcases hc with hc | hc
        · exact hb c hc
        · simp at hc
          omega
      · rw [List.map_append, List.map_cons, List.map_nil, evalDigits_append, he]
        omega

lemma natChars_spec (n : Nat) :
    (∀ c ∈ natChars n, 48 ≤ c ∧ c ≤ 57) ∧
    evalDigits ((natChars n).map (fun c => c - 48)) = n ∧ natChars n ≠ [] := by
  by_cases h : n = 0
  · subst h
    refine ⟨?_, by simp [natChars, evalDigits], by simp [natChars]⟩
    intro c hc
    simp [natChars] at hc
    omega
  · simp only [natChars, if_neg h]
    exact natCharsAux_spec n n (by omega) le_rfl

lemma takeWhile_all (p : Nat → Bool) :
    ∀ l : List Nat, (∀ x ∈ l, p x = true) → l.takeWhile p = l := by
  intro l
  induction l with
  | nil => intro _; rfl
  | cons a t ih =>
    intro h
    rw [List.takeWhile_cons_of_pos (h a (by simp)),
      ih (fun x hx => h x (List.mem_cons_of_mem a hx))]

lemma dropWhile_all (p : Nat → Bool) :
    ∀ l : List Nat, (∀ x ∈ l, p x = true) → l.dropWhile p = [] := by
  intro l
  induction l with
  | nil => intro _; rfl
  | cons a t ih =>
    intro h
    rw [List.dropWhile_cons_of_pos (h a (by simp)),
      ih (fun x hx => h x (List.mem_cons_of_mem a hx))]

lemma takeWhile_append_stop (p : Nat → Bool) :
    ∀ l : List Nat, (∀ x ∈ l, p x = true) → ∀ y r, p y = false →
      (l ++ y :: r).takeWhile p = l ∧ (l ++ y :: r).dropWhile p = y :: r := by
  intro l
  induction l with
  | nil =>
    intro _ y r hy
    exact ⟨List.takeWhile_cons_of_neg (by simp [hy]),
      List.dropWhile_cons_of_neg (by simp [hy])⟩
  | cons a t ih =>
    intro h y r hy
    obtain ⟨h1, h2⟩ := ih (fun x hx => h x (List.mem_cons_of_mem a hx)) y r hy
    constructor
    · rw [List.cons_append, List.takeWhile_cons_of_pos (h a (by simp)), h1]
    · rw [List.cons_append, List.dropWhile_cons_of_pos (h a (by simp)), h2]

lemma isDigit_natChars (n : Nat) : ∀ c ∈ natChars n, isDigitByte c = true := by
  intro c hc
  have h := (natChars_spec n).1 c hc
  simp [isDigitByte]
  omega

lemma parseDigits_natChars (n : Nat) : parseDigits (natChars n) = some (n, []) := by
  have h1 := takeWhile_all isDigitByte (natChars n) (isDigit_natChars n)
  have h2 := dropWhile_all isDigitByte (natChars n) (isDigit_natChars n)
  unfold parseDigits
  rw [h1, h2, if_neg (natChars_spec n).2.2, (natChars_spec n).2.1]

lemma parseDigits_natChars_cons (n y : Nat) (r : List Nat) (hy : isDigitByte y = false) :
    parseDigits (natChars n ++ y :: r) = some (n, y :: r) := by
  obtain ⟨h1, h2⟩ :=
    takeWhile_append_stop isDigitByte (natChars n) (isDigit_natChars n) y r hy
  unfold parseDigits
  rw [h1, h2, if_neg (natChars_spec n).2.2, (natChars_spec n).2.1]

lemma splitOn_ne_nil (d : Nat) : ∀ l, splitOn d l ≠ [] := by
  intro l
  cases l with
  | nil => simp [splitOn]
  | cons b rest =>
    simp only [splitOn]
    cases hsp : splitOn d rest with
    | nil => simp
    | cons h t =>
      dsimp only
      split <;> simp

lemma splitOn_of_not_mem (d : Nat) : ∀ l, d ∉ l → splitOn d l = [l] := by
  intro l
  induction l with
  | nil => intro _; rfl
  | cons b rest ih =>
    intro h
    have hb : b ≠ d := fun hbd => h (by simp [hbd])
    have hrest : splitOn d rest = [rest] := ih (fun hd => h (by simp [hd]))
    simp only [splitOn, hrest]
    rw [if_neg hb]

lemma splitOn_append (d : Nat) :
    ∀ l r : List Nat, d ∉ l → splitOn d (l ++ d :: r) = l :: splitOn d r := by
  intro l
  induction l with
  | nil =>
    intro r _
    simp only [List.nil_append, splitOn]
    cases hsp : splitOn d r with
    | nil => exact absurd hsp (splitOn_ne_nil d r)
    | cons h t =>
      dsimp only
      simp
  | cons x xs ih =>
    intro r h
    have hx : x ≠ d := fun hxd => h (by simp [hxd])
    have hrec : splitOn d (xs ++ d :: r) = xs :: splitOn d r :=
      ih r (fun hd => h (by simp [hd]))
    simp only [List.cons_append, splitOn, List.append_eq, hrec]
    rw [if_neg hx]

lemma splitOn_joinDollar :
    ∀ fs : List (List Nat), fs ≠ [] → (∀ f ∈ fs, 36 ∉ f) →
      splitOn 36 (joinDollar fs) = fs := by
  intro fs
  induction fs with
  | nil => intro h _; exact absurd rfl h
  | cons f rest ih =>
    intro _ hall
    cases rest with
    | nil =>
      rw [show joinDollar [f] = f from rfl]
      exact splitOn_of_not_mem 36 f (hall f (by simp))
    | cons g rest2 =>
      rw [show joinDollar (f :: g :: rest2) = f ++ 36 :: joinDollar (g :: rest2) from rfl]
      rw [splitOn_append 36 f _ (hall f (by simp))]
      rw [ih (by simp) (fun x hx => hall x (List.mem_cons_of_mem f hx))]

lemma lor_eq_zero (a b : Nat) : a ||| b = 0 ↔ a = 0 ∧ b = 0 := by
  constructor
  · intro h
    have hbit : ∀ i, a.testBit i = false ∧ b.testBit i = false := by
      intro i
      have hc := congrArg (fun n => Nat.testBit n i) h
      simp only [Nat.testBit_or, Nat.zero_testBit] at hc
      exact Bool.or_eq_false_iff.mp hc
    exact ⟨Nat.eq_of_testBit_eq (fun i => by rw [(hbit i).1, Nat.zero_testBit]),
      Nat.eq_of_testBit_eq (fun i => by rw [(hbit i).2, Nat.zero_testBit])⟩
  · rintro ⟨rfl, rfl⟩; rfl

lemma foldl_orxor_eq_zero :
    ∀ (l : List (Nat × Nat)) (v : Nat),
      l.foldl (fun v p => v ||| (p.1 ^^^ p.2)) v = 0 ↔ v = 0 ∧ ∀ p ∈ l, p.1 = p.2 := by
  intro l
  induction l with
  | nil => intro v; simp
  | cons hd tl ih =>
    intro v
    rw [List.foldl_cons, ih, lor_eq_zero, Nat.xor_eq_zero]
    constructor
    · rintro ⟨⟨hv, hx⟩, hall⟩
      refine ⟨hv, ?_⟩
      intro p hp
      rcases List.mem_cons.mp hp with rfl | hp
      · exact hx
      · exact hall p hp
    · rintro ⟨hv, hall⟩
      exact ⟨⟨hv, hall hd (by simp)⟩, fun p hp => hall p (List.mem_cons_of_mem hd hp)⟩

lemma zip_self_eq : ∀ (x : List Nat) (p : Nat × Nat), p ∈ x.zip x → p.1 = p.2 := by
  intro x
  induction x with
  | nil => intro p hp; simp at hp
  | cons a t ih =>
    intro p hp
    rcases List.mem_cons.mp hp with rfl | hp
    · rfl
    · exact ih p hp

lemma zip_pointwise_eq :
    ∀ (x y : List Nat), x.length = y.length →
      ((∀ p ∈ x.zip y, p.1 = p.2) ↔ x = y) := by
  intro x
  induction x with
  | nil =>
    intro y h
    cases y with
    | nil => simp
    | cons b s => simp at h
  | cons a t ih =>
    intro y h
    cases y with
    | nil => simp at h
    | cons b s =>
      constructor
      · intro hall
        have hab : a = b := hall (a, b) (by simp)
        have hts : t = s :=
          (ih s (by simpa using h)).mp (fun p hp => hall p (List.mem_cons_of_mem (a, b) hp))
        rw [hab, hts]
      · intro h2
        rw [h2]
        exact zip_self_eq (b :: s)

lemma constantTimeCompare_eq_one_iff (x y : List Nat) :
    constantTimeCompare x y = 1 ↔ x = y := by
  unfold constantTimeCompare
  by_cases h : x.length = y.length
  · rw [if_neg (not_not_intro h)]
    by_cases hf : (x.zip y).foldl (fun v p => v ||| (p.1 ^^^ p.2)) 0 = 0
    · rw [if_pos hf]
      have hall := ((foldl_orxor_eq_zero (x.zip y) 0).mp hf).2
      exact ⟨fun _ => (zip_pointwise_eq x y h).mp hall, fun _ => rfl⟩
    · rw [if_neg hf]
      constructor
      · intro h01; exact absurd h01 (by norm_num)
      · intro hxy
        exact absurd ((foldl_orxor_eq_zero (x.zip y) 0).mpr
          ⟨rfl, by rw [hxy]; exact zip_self_eq y⟩) hf
  · rw [if_pos h]
    constructor
    · intro h01; exact absurd h01 (by norm_num)
    · intro hxy; exact absurd (congrArg List.length hxy) h

lemma foldl_pair_count :
    ∀ (l : List (Nat × Nat)) (v c : Nat),
      l.foldl (fun acc p => (acc.1 ||| (p.1 ^^^ p.2), acc.2 + 1)) (v, c) =
        (l.foldl (fun v p => v ||| (p.1 ^^^ p.2)) v, c + l.length) := by
  intro l
  induction l with
  | nil => intro v c; simp
  | cons hd tl ih =>
    intro v c
    rw [List.foldl_cons, List.foldl_cons, ih]
    refine Prod.ext rfl ?_
    simp
    omega

lemma b64Index_b64Char : ∀ i < 64, b64Index (b64Char i) = some i := by decide

lemma b64Char_ge (i : Nat) : 43 ≤ b64Char i := by
  unfold b64Char
  repeat' split
  all_goals omega

lemma b64Char_ne_61 (i : Nat) : b64Char i ≠ 61 := by
  unfold b64Char
  repeat' split
  all_goals omega

lemma ne_36_b64Char (i : Nat) : 36 ≠ b64Char i := by
  have := b64Char_ge i
  omega

lemma encodeB64_no_dollar : ∀ bs : List Nat, 36 ∉ encodeB64 bs
  | [] => by simp [encodeB64]
  | [b1] => by simp [encodeB64, ne_36_b64Char]
  | [b1, b2] => by simp [encodeB64, ne_36_b64Char]
  | b1 :: b2 :: b3 :: rest => by
    simp only [encodeB64, List.mem_cons]
    push_neg
    exact ⟨ne_36_b64Char _, ne_36_b64Char _, ne_36_b64Char _, ne_36_b64Char _,
      encodeB64_no_dollar rest⟩

lemma decodeB64_encodeB64 :
    ∀ bs : List Nat, (∀ b ∈ bs, b < 256) → decodeB64 (encodeB64 bs) = some bs
  | [], _ => rfl
  | [b1], h => by
    have hb1 : b1 < 256 := h b1 (by simp)
    show decodeB64 [b64Char (b1 / 4), b64Char (b1 % 4 * 16), 61, 61] = some [b1]
    simp only [decodeB64]
    rw [b64Index_b64Char (b1 / 4) (by omega), b64Index_b64Char (b1 % 4 * 16) (by omega)]
    dsimp only
    simp
    omega
  | [b1, b2], h => by
    have hb1 : b1 < 256 := h b1 (by simp)
    have hb2 : b2 < 256 := h b2 (by simp)
    show decodeB64 [b64Char (b1 / 4), b64Char (b1 % 4 * 16 + b2 / 16),
      b64Char (b2 % 16 * 4), 61] = some [b1, b2]
    simp only [decodeB64]
    rw [b64Index_b64Char (b1 / 4) (by omega),
      b64Index_b64Char (b1 % 4 * 16 + b2 / 16) (by omega)]
    dsimp only
    rw [if_neg (b64Char_ne_61 _)]
    rw [b64Index_b64Char (b2 % 16 * 4) (by omega)]
    dsimp only
    simp
    omega
  | b1 :: b2 :: b3 :: b4 :: rest, h => by
    have hb1 : b1 < 256 := h b1 (by simp)
    have hb2 : b2 < 256 := h b2 (by simp)
    have hb3 : b3 < 256 := h b3 (by simp)
    have ih := decodeB64_encodeB64 (b4 :: rest) (fun b hb => h b (by simp [List.mem_cons] at hb ⊢; tauto))
    show decodeB64 (b64Char (b1 / 4) :: b64Char (b1 % 4 * 16 + b2 / 16) ::
      b64Char (b2 % 16 * 4 + b3 / 64) :: b64Char (b3 % 64) :: encodeB64 (b4 :: rest)) =
      some (b1 :: b2 :: b3 :: b4 :: rest)
    simp only [decodeB64]
    rw [b64Index_b64Char (b1 / 4) (by omega),
      b64Index_b64Char (b1 % 4 * 16 + b2 / 16) (by omega)]
    dsimp only
    rw [if_neg (b64Char_ne_61 _)]
    rw [b64Index_b64Char (b2 % 16 * 4 + b3 / 64) (by omega)]
    dsimp only
    rw [if_neg (b64Char_ne_61 _)]
    rw [b64Index_b64Char (b3 % 64) (by omega)]
    dsimp only
    rw [ih]
    dsimp only
    simp
    omega
  | [b1, b2, b3], h => by
    have hb1 : b1 < 256 := h b1 (by simp)
    have hb2 : b2 < 256 := h b2 (by simp)
    have hb3 : b3 < 256 := h b3 (by simp)
    show decodeB64 (b64Char (b1 / 4) :: b64Char (b1 % 4 * 16 + b2 / 16) ::
      b64Char (b2 % 16 * 4 + b3 / 64) :: b64Char (b3 % 64) :: encodeB64 []) =
      some [b1, b2, b3]
    simp only [decodeB64]
    rw [b64Index_b64Char (b1 / 4) (by omega),
      b64Index_b64Char (b1 % 4 * 16 + b2 / 16) (by omega)]
    dsimp only
    rw [if_neg (b64Char_ne_61 _)]
    rw [b64Index_b64Char (b2 % 16 * 4 + b3 / 64) (by omega)]
    dsimp only
    rw [if_neg (b64Char_ne_61 _)]
    rw [b64Index_b64Char (b3 % 64) (by omega)]
    dsimp only
    simp
    omega

lemma no_dollar_natChars (n : Nat) : 36 ∉ natChars n := by
  intro h
  have := (natChars_spec n).1 36 h
  omega

lemma no_dollar_vField : 36 ∉ vField := by decide

lemma no_dollar_mtpField (a : Argon2IdHash) : 36 ∉ mtpField a := by
  intro h
  simp only [mtpField, List.mem_cons, List.mem_append] at h
  rcases h with h | h
  · omega
  rcases h with h | h
  · omega
  rcases h with h | h
  · exact no_dollar_natChars a.Memory h
  rcases h with h | h
  · omega
  rcases h with h | h
  · omega
  rcases h with h | h
  · omega
  rcases h with h | h
  · exact no_dollar_natChars a.Time h
  rcases h with h | h
  · omega
  rcases h with h | h
  · omega
  rcases h with h | h
  · omega
  · exact no_dollar_natChars a.Threads h

lemma scanVersion_vField : scanVersion vField = some 19 := by decide

lemma isDigitByte_44 : isDigitByte 44 = false := by decide

lemma scanParams_mtpField (a : Argon2IdHash) (hm : a.Memory < 2 ^ 32)
    (ht : a.Time < 2 ^ 32) (hp : a.Threads < 2 ^ 8) :
    scanParams (mtpField a) = some (a.Memory, a.Time, a.Threads) := by
  rw [show mtpField a = 109 :: 61 :: (natChars a.Memory ++
    44 :: 116 :: 61 :: (natChars a.Time ++ 44 :: 112 :: 61 :: natChars a.Threads)) from rfl]
  simp only [scanParams]
  rw [parseDigits_natChars_cons a.Memory 44 _ isDigitByte_44]
  dsimp only
  rw [if_pos hm]
  rw [parseDigits_natChars_cons a.Time 44 _ isDigitByte_44]
  dsimp only
  rw [if_pos ht]
  rw [parseDigits_natChars a.Threads]
  dsimp only
  rw [if_pos hp]

lemma splitOn_encodeHashComponents (salt hash : List Nat) (a : Argon2IdHash) :
    splitOn 36 (encodeHashComponents salt hash a) =
      [[], ascii "argon2id", vField, mtpField a, encodeB64 salt, encodeB64 hash] := by
  apply splitOn_joinDollar
  · simp
  · intro f hf
    simp only [List.mem_cons] at hf
    rcases hf with rfl | rfl | rfl | rfl | rfl | rfl | hf
    · simp
    · decide
    · exact no_dollar_vField
    · exact no_dollar_mtpField a
    · exact encodeB64_no_dollar salt
    · exact encodeB64_no_dollar hash
    · simp at hf

lemma decodeHash_encode (salt hash : List Nat) (a : Argon2IdHash)
    (hs : ∀ b ∈ salt, b < 256) (hh : ∀ b ∈ hash, b < 256)
    (hm : a.Memory < 2 ^ 32) (ht : a.Time < 2 ^ 32) (hp : a.Threads < 2 ^ 8) :
    decodeHash (encodeHashComponents salt hash a) =
      .ok (⟨a.Time, a.Memory, a.Threads, hash.length % 2 ^ 32, salt.length % 2 ^ 32⟩,
        salt, hash) := by
  unfold decodeHash
  rw [splitOn_encodeHashComponents salt hash a]
  dsimp only
  unfold decodeFields
  rw [scanVersion_vField]
  dsimp only
  rw [scanParams_mtpField a hm ht hp]
  dsimp only
  rw [decodeB64_encodeB64 salt hs]
  dsimp only
  rw [decodeB64_encodeB64 hash hh]

lemma validateSaltLength_nil (n : Nat) : validateSaltLength [] n = none := by
  simp [validateSaltLength]

lemma generateBytes_length (n : Nat) (entropy : Nat → Nat) :
    (generateBytes n entropy).length = n := by
  simp [generateBytes]

lemma generateBytes_lt (n : Nat) (entropy : Nat → Nat) :
    ∀ b ∈ generateBytes n entropy, b < 256 := by
  intro b hb
  simp only [generateBytes, List.mem_map] at hb
  obtain ⟨i, _, rfl⟩ := hb
  omega

lemma GenerateHash_validated (idKey : KDF) (a : Argon2IdHash)
    (password salt : List Nat) (entropy : Nat → Nat)
    (hv : validateSaltLength salt a.SaltLen = none) :
    GenerateHash idKey a password salt entropy =
      .ok (encodeHashComponents
        (if salt.length = 0 then generateBytes a.SaltLen entropy else salt)
        (idKey password
          (if salt.length = 0 then generateBytes a.SaltLen entropy else salt)
          a.Time a.Memory a.Threads a.KeyLen) a) := by
  unfold GenerateHash
  rw [hv]

lemma toyKDF_length (password salt : List Nat) (time memory threads keyLen : Nat) :
    (toyKDF password salt time memory threads keyLen).length = keyLen := by
  simp [toyKDF]

lemma toyKDF_lt (password salt : List Nat) (time memory threads keyLen : Nat) :
    ∀ b ∈ toyKDF password salt time memory threads keyLen, b < 256 := by
  intro b hb
  simp only [toyKDF, List.mem_map] at hb
  obtain ⟨i, _, rfl⟩ := hb
  omega

/-- C1: for every password and every parameter set (with fields in their Go
integer ranges), verifying the password against the encoded hash produced by
generating with that password and an empty salt succeeds with `(true, nil)`,
for any key-derivation function that returns `keyLen` bytes. -/
theorem c1_round_trip (idKey : KDF) (a : Argon2IdHash) (password : List Nat)
    (entropy : Nat → Nat)
    (hlen : ∀ pwd s t m th k, (idKey pwd s t m th k).length = k)
    (hbytes : ∀ pwd s t m th k, ∀ b ∈ idKey pwd s t m th k, b < 256)
    (hm : a.Memory < 2 ^ 32) (ht : a.Time < 2 ^ 32) (hp : a.Threads < 2 ^ 8)
    (hk : a.KeyLen < 2 ^ 32) :
    (GenerateHash idKey a password [] entropy).map
      (fun enc => VerifyHash idKey password enc) = .ok (true, none) := by
  rw [GenerateHash_validated idKey a password [] entropy (validateSaltLength_nil a.SaltLen)]
  simp only [List.length_nil, if_pos]
  simp only [Except.map]
  unfold VerifyHash
  rw [decodeHash_encode (generateBytes a.SaltLen entropy) _ a
    (generateBytes_lt a.SaltLen entropy)
    (hbytes password (generateBytes a.SaltLen entropy) a.Time a.Memory a.Threads a.KeyLen)
    hm ht hp]
  dsimp only
  rw [hlen password (generateBytes a.SaltLen entropy) a.Time a.Memory a.Threads a.KeyLen,
    Nat.mod_eq_of_lt hk]
  rw [if_pos ((constantTimeCompare_eq_one_iff _ _).mpr rfl)]

/-- C2: `VerifyHash` returns an error exactly when `decodeHash` fails, with the
boolean `false` and the same error; once decoding succeeds it returns
`(true, nil)` exactly when the re-derived digest equals the stored digest and
`(false, nil)` otherwise. -/
theorem c2_error_characterization (idKey : KDF) (password enc : List Nat) :
    match decodeHash enc with
    | .error e => VerifyHash idKey password enc = (false, some e)
    | .ok (a, salt, hash) =>
        VerifyHash idKey password enc =
          if hash = idKey password salt a.Time a.Memory a.Threads a.KeyLen
          then (true, none) else (false, none) := by
  cases hd : decodeHash enc with
  | error e =>
    dsimp only
    unfold VerifyHash
    rw [hd]
  | ok x =>
    obtain ⟨a, salt, hash⟩ := x
    dsimp only
    unfold VerifyHash
    rw [hd]
    dsimp only
    by_cases hcmp : hash = idKey password salt a.Time a.Memory a.Threads a.KeyLen
    · rw [if_pos ((constantTimeCompare_eq_one_iff _ _).mpr hcmp), if_pos hcmp]
    · rw [if_neg (fun h1 => hcmp ((constantTimeCompare_eq_one_iff _ _).mp h1)),
        if_neg hcmp]

/-- C3 (amended): for every non-empty salt whose length truncated to `uint32`
differs from the configured `SaltLen`, `GenerateHash` returns the
`InvalidSaltLength` error — for any derivation function — and the instrumented
generator performs zero derivation calls. -/
theorem c3_wrong_salt_rejected (idKey : KDF) (a : Argon2IdHash)
    (password salt : List Nat) (entropy : Nat → Nat) (hne : salt ≠ [])
    (hlen : salt.length % 2 ^ 32 ≠ a.SaltLen) :
    GenerateHash idKey a password salt entropy = .error .ErrInvalidSaltLength ∧
    (GenerateHashCount idKey a password salt entropy).2 = 0 := by
  have hv : validateSaltLength salt a.SaltLen = some .ErrInvalidSaltLength := by
    unfold validateSaltLength
    rw [if_pos ⟨by cases salt with
      | nil => exact absurd rfl hne
      | cons x xs => simp, hlen⟩]
  constructor
  · unfold GenerateHash
    rw [hv]
  · unfold GenerateHashCount
    rw [hv]

/-- Witness for C3 (amended) at a concrete wrong-length salt. -/
theorem c3_wrong_salt_rejected_witness :
    GenerateHash toyKDF DefaultArgon2IDHash (ascii "pw") [1, 2, 3] (fun i => i) =
      .error .ErrInvalidSaltLength ∧
    (GenerateHashCount toyKDF DefaultArgon2IDHash (ascii "pw") [1, 2, 3] (fun i => i)).2 = 0 :=
  c3_wrong_salt_rejected toyKDF DefaultArgon2IDHash (ascii "pw") [1, 2, 3] (fun i => i)
    (by decide) (by decide)

/-- Counterexample to C3 as stated: a salt of length `2 ^ 32 + 32` is non-empty
and its length differs from the configured `SaltLen = 32`, yet
`validateSaltLength` accepts it (the Go code compares `uint32(len(salt))`,
which truncates) and `GenerateHash` does not return `ErrInvalidSaltLength`. -/
theorem c3_counterexample :
    (List.replicate (2 ^ 32 + 32) (0 : Nat)).length ≠ DefaultArgon2IDHash.SaltLen ∧
    List.replicate (2 ^ 32 + 32) (0 : Nat) ≠ [] ∧
    validateSaltLength (List.replicate (2 ^ 32 + 32) (0 : Nat))
      DefaultArgon2IDHash.SaltLen = none ∧
    GenerateHash toyKDF DefaultArgon2IDHash (ascii "pw")
      (List.replicate (2 ^ 32 + 32) (0 : Nat)) (fun i => i) ≠
      .error GoError.ErrInvalidSaltLength := by
  have hlen : (List.replicate (2 ^ 32 + 32) (0 : Nat)).length = 2 ^ 32 + 32 :=
    List.length_replicate ..
  have hv : validateSaltLength (List.replicate (2 ^ 32 + 32) (0 : Nat))
      DefaultArgon2IDHash.SaltLen = none := by
    unfold validateSaltLength
    rw [if_neg]
    rw [hlen]
    intro hcon
    rw [show DefaultArgon2IDHash.SaltLen = 32 from rfl] at hcon
    omega
  refine ⟨?_, ?_, hv, ?_⟩
  · rw [hlen]
    decide
  · intro hcon
    have := congrArg List.length hcon
    rw [hlen] at this
    simp at this
  · intro hcon
    rw [GenerateHash_validated toyKDF DefaultArgon2IDHash (ascii "pw") _ (fun i => i) hv]
      at hcon
    exact Except.noConfusion hcon

/-- C4: decoding a string produced by `GenerateHash` and re-encoding the
decoded parameter, salt and digest components reproduces the string
byte-for-byte. -/
theorem c4_decode_reencode (idKey : KDF) (a : Argon2IdHash)
    (password salt : List Nat) (entropy : Nat → Nat) (enc : List Nat)
    (hsalt : ∀ b ∈ salt, b < 256)
    (hbytes : ∀ pwd s t m th k, ∀ b ∈ idKey pwd s t m th k, b < 256)
    (hm : a.Memory < 2 ^ 32) (ht : a.Time < 2 ^ 32) (hp : a.Threads < 2 ^ 8)
    (hok : GenerateHash idKey a password salt entropy = .ok enc) :
    (decodeHash enc).map (fun x => encodeHashComponents x.2.1 x.2.2 x.1) = .ok enc := by
  cases hv : validateSaltLength salt a.SaltLen with
  | some e =>
    unfold GenerateHash at hok
    rw [hv] at hok
    exact absurd hok (by simp)
  | none =>
    rw [GenerateHash_validated idKey a password salt entropy hv] at hok
    injection hok with hok
    subst hok
    have hsb : ∀ b ∈ (if salt.length = 0 then generateBytes a.SaltLen entropy else salt),
        b < 256 := by
      split
      · exact generateBytes_lt a.SaltLen entropy
      · exact hsalt
    rw [decodeHash_encode _ _ a hsb
      (hbytes password _ a.Time a.Memory a.Threads a.KeyLen) hm ht hp]
    rfl

/-- C5: verifying a second password against a hash generated from a first
password fails with `(false, nil)`, for any derivation function whose digests
for the two passwords differ (the collision-freedom that the claim's
`p1 ≠ p2` hypothesis presupposes of Argon2id). -/
theorem c5_rejection (idKey : KDF) (a : Argon2IdHash) (p1 p2 : List Nat)
    (entropy : Nat → Nat)
    (hlen : ∀ pwd s t m th k, (idKey pwd s t m th k).length = k)
    (hbytes : ∀ pwd s t m th k, ∀ b ∈ idKey pwd s t m th k, b < 256)
    (hm : a.Memory < 2 ^ 32) (ht : a.Time < 2 ^ 32) (hp : a.Threads < 2 ^ 8)
    (hk : a.KeyLen < 2 ^ 32) (_hpw : p1 ≠ p2)
    (hne : idKey p2 (generateBytes a.SaltLen entropy) a.Time a.Memory a.Threads a.KeyLen ≠
      idKey p1 (generateBytes a.SaltLen entropy) a.Time a.Memory a.Threads a.KeyLen) :
    (GenerateHash idKey a p1 [] entropy).map
      (fun enc => VerifyHash idKey p2 enc) = .ok (false, none) := by
  rw [GenerateHash_validated idKey a p1 [] entropy (validateSaltLength_nil a.SaltLen)]
  simp only [List.length_nil, if_pos]
  simp only [Except.map]
  unfold VerifyHash
  rw [decodeHash_encode (generateBytes a.SaltLen entropy) _ a
    (generateBytes_lt a.SaltLen entropy)
    (hbytes p1 (generateBytes a.SaltLen entropy) a.Time a.Memory a.Threads a.KeyLen)
    hm ht hp]
  dsimp only
  rw [hlen p1 (generateBytes a.SaltLen entropy) a.Time a.Memory a.Threads a.KeyLen,
    Nat.mod_eq_of_lt hk]
  rw [if_neg (fun h1 => hne ((constantTimeCompare_eq_one_iff _ _).mp h1).symm)]

/-- Witness for C1 at the default parameters and a concrete password. -/
theorem c1_round_trip_witness :
    (GenerateHash toyKDF DefaultArgon2IDHash (ascii "correct horse") [] (fun i => i)).map
      (fun enc => VerifyHash toyKDF (ascii "correct horse") enc) = .ok (true, none) :=
  c1_round_trip toyKDF DefaultArgon2IDHash (ascii "correct horse") (fun i => i)
    toyKDF_length toyKDF_lt (by decide) (by decide) (by decide) (by decide)

/-- Witness for C4 at a concrete generated hash. -/
theorem c4_decode_reencode_witness :
    (decodeHash (ascii "$argon2id$v=19$m=16,t=2,p=1$AAECAw==$YmRmaA==")).map
      (fun x => encodeHashComponents x.2.1 x.2.2 x.1) =
      .ok (ascii "$argon2id$v=19$m=16,t=2,p=1$AAECAw==$YmRmaA==") :=
  c4_decode_reencode toyKDF ⟨2, 16, 1, 4, 4⟩ (ascii "pw") [] (fun i => i) _
    (by simp) toyKDF_lt (by decide) (by decide) (by decide) (by decide)

/-- Witness for C5 at two concrete distinct passwords. -/
theorem c5_rejection_witness :
    (GenerateHash toyKDF DefaultArgon2IDHash (ascii "a") [] (fun i => i)).map
      (fun enc => VerifyHash toyKDF (ascii "b") enc) = .ok (false, none) :=
  c5_rejection toyKDF DefaultArgon2IDHash (ascii "a") (ascii "b") (fun i => i)
    toyKDF_length toyKDF_lt (by decide) (by decide) (by decide) (by decide)
    (by decide) (by decide)

/-- Counterexample to C6 as stated: on the valid encoded hash
`$argon2id$v=19$m=16,t=2,p=1$AAECAw==$YmRmaA==` (which verifies `(true, nil)`
with the correct password), replacing the final digest-segment byte `=` with
`$` makes verification fail with the `InvalidEncodedHash` error rather than
`(false, nil)`, and replacing the digest-segment byte `A` with `B` changes
only ignored trailing base64 padding bits, so verification still returns
`(true, nil)`. -/
theorem c6_counterexample :
    VerifyHash toyKDF (ascii "pw")
      (ascii "$argon2id$v=19$m=16,t=2,p=1$AAECAw==$YmRmaA==") = (true, none) ∧
    VerifyHash toyKDF (ascii "pw")
      (ascii "$argon2id$v=19$m=16,t=2,p=1$AAECAw==$YmRmaA=$") =
      (false, some GoError.ErrInvalidEncodedHash) ∧
    VerifyHash toyKDF (ascii "pw")
      (ascii "$argon2id$v=19$m=16,t=2,p=1$AAECAw==$YmRmaB==") = (true, none) := by
  decide

/-- C6 (amended): replacing the digest segment of a valid encoded hash by any
`$`-free segment that still decodes as base64 to bytes different from the
digest the derivation function re-derives at the decoded length makes
verification with the correct password return `(false, nil)`. -/
theorem c6_tamper_detection (idKey : KDF) (a : Argon2IdHash) (password : List Nat)
    (entropy : Nat → Nat) (fieldT dT : List Nat)
    (hm : a.Memory < 2 ^ 32) (ht : a.Time < 2 ^ 32) (hp : a.Threads < 2 ^ 8)
    (hnd : 36 ∉ fieldT)
    (hdec : decodeB64 fieldT = some dT)
    (hne : dT ≠ idKey password (generateBytes a.SaltLen entropy) a.Time a.Memory
      a.Threads (dT.length % 2 ^ 32)) :
    VerifyHash idKey password
      (joinDollar [[], ascii "argon2id", vField, mtpField a,
        encodeB64 (generateBytes a.SaltLen entropy), fieldT]) = (false, none) := by
  have hsplit : splitOn 36 (joinDollar [[], ascii "argon2id", vField, mtpField a,
      encodeB64 (generateBytes a.SaltLen entropy), fieldT]) =
      [[], ascii "argon2id", vField, mtpField a,
        encodeB64 (generateBytes a.SaltLen entropy), fieldT] := by
    apply splitOn_joinDollar
    · simp
    · intro f hf
      simp only [List.mem_cons] at hf
      rcases hf with rfl | rfl | rfl | rfl | rfl | rfl | hf
      · simp
      · decide
      · exact no_dollar_vField
      · exact no_dollar_mtpField a
      · exact encodeB64_no_dollar _
      · exact hnd
      · simp at hf
  unfold VerifyHash decodeHash
  rw [hsplit]
  dsimp only
  unfold decodeFields
  rw [scanVersion_vField]
  dsimp only
  rw [scanParams_mtpField a hm ht hp]
  dsimp only
  rw [decodeB64_encodeB64 _ (generateBytes_lt a.SaltLen entropy)]
  dsimp only
  rw [hdec]
  dsimp only
  rw [if_neg (fun h1 => hne ((constantTimeCompare_eq_one_iff _ _).mp h1))]

/-- Witness for C6 (amended): tampering the digest segment of the concrete
valid hash from `YmRmaA==` to `YmRmaQ==` (decoded digest differs in its last
byte) makes verification return `(false, nil)`. -/
theorem c6_tamper_detection_witness :
    VerifyHash toyKDF (ascii "pw")
      (joinDollar [[], ascii "argon2id", vField, mtpField ⟨2, 16, 1, 4, 4⟩,
        encodeB64 (generateBytes 4 (fun i => i)), ascii "YmRmaQ=="]) = (false, none) :=
  c6_tamper_detection toyKDF ⟨2, 16, 1, 4, 4⟩ (ascii "pw") (fun i => i)
    (ascii "YmRmaQ==") [98, 100, 102, 105] (by decide) (by decide) (by decide)
    (by decide) (by decide) (by decide)

/-- C7: every `GenerateHash` output splits on `$` into exactly the six fields
of the format `$argon2id$v=<version>$m=<m>,t=<t>,p=<p>$<base64 salt>$<base64
digest>`: leading empty field, the literal scheme tag, the version and
parameter fields, and the two padded standard base64 fields. -/
theorem c7_format (idKey : KDF) (a : Argon2IdHash) (password salt : List Nat)
    (entropy : Nat → Nat) (enc : List Nat)
    (hok : GenerateHash idKey a password salt entropy = .ok enc) :
    splitOn 36 enc =
      [[], ascii "argon2id", vField, mtpField a,
        encodeB64 (if salt.length = 0 then generateBytes a.SaltLen entropy else salt),
        encodeB64 (idKey password
          (if salt.length = 0 then generateBytes a.SaltLen entropy else salt)
          a.Time a.Memory a.Threads a.KeyLen)] := by
  cases hv : validateSaltLength salt a.SaltLen with
  | some e =>
    unfold GenerateHash at hok
    rw [hv] at hok
    exact absurd hok (by simp)
  | none =>
    rw [GenerateHash_validated idKey a password salt entropy hv] at hok
    injection hok with hok
    subst hok
    exact splitOn_encodeHashComponents _ _ a

/-- Witness for C7 at a concrete generated hash. -/
theorem c7_format_witness :
    splitOn 36 (ascii "$argon2id$v=19$m=16,t=2,p=1$AAECAw==$YmRmaA==") =
      [[], ascii "argon2id", vField, mtpField ⟨2, 16, 1, 4, 4⟩,
        encodeB64 (if ([] : List Nat).length = 0 then generateBytes 4 (fun i => i) else []),
        encodeB64 (toyKDF (ascii "pw")
          (if ([] : List Nat).length = 0 then generateBytes 4 (fun i => i) else [])
          2 16 1 4)] :=
  c7_format toyKDF ⟨2, 16, 1, 4, 4⟩ (ascii "pw") [] (fun i => i) _ (by decide)

/-- C8: the comparison used by `VerifyHash`, modelled with one cost unit per
loop iteration, always runs over the full byte length on equal-length inputs
(its cost is independent of where the buffers first differ), agrees with the
uninstrumented comparison, and returns 1 exactly on equal buffers. -/
theorem c8_constant_time (x y : List Nat) (h : x.length = y.length) :
    (constantTimeCompareCost x y).2 = x.length ∧
    (constantTimeCompareCost x y).1 = constantTimeCompare x y ∧
    (constantTimeCompare x y = 1 ↔ x = y) := by
  refine ⟨?_, ?_, constantTimeCompare_eq_one_iff x y⟩
  · unfold constantTimeCompareCost
    rw [if_neg (not_not_intro h)]
    dsimp only
    rw [foldl_pair_count]
    dsimp only
    rw [List.length_zip]
    omega
  · unfold constantTimeCompareCost constantTimeCompare
    rw [if_neg (not_not_intro h), if_neg (not_not_intro h)]
    dsimp only
    rw [foldl_pair_count]

/-- Witness for C8 at concrete equal-length buffers differing in the middle. -/
theorem c8_constant_time_witness :
    (constantTimeCompareCost [1, 2, 3] [1, 9, 3]).2 = ([1, 2, 3] : List Nat).length ∧
    (constantTimeCompareCost [1, 2, 3] [1, 9, 3]).1 =
      constantTimeCompare [1, 2, 3] [1, 9, 3] ∧
    (constantTimeCompare [1, 2, 3] [1, 9, 3] = 1 ↔ ([1, 2, 3] : List Nat) = [1, 9, 3]) :=
  c8_constant_time [1, 2, 3] [1, 9, 3] (by decide)

/-- C9: the parsed version value is discarded — two encoded strings that
differ only in a parseable version number verify identically, and a string
whose version field parses never produces the `IncompatibleVersion` error. -/
theorem c9_version_discarded (idKey : KDF) (password f0 f1 v1 v2 f3 f4 f5 : List Nat)
    (h0 : 36 ∉ f0) (h1 : 36 ∉ f1) (hv1 : 36 ∉ v1) (hv2 : 36 ∉ v2)
    (h3 : 36 ∉ f3) (h4 : 36 ∉ f4) (h5 : 36 ∉ f5)
    (hp1 : (scanVersion v1).isSome) (hp2 : (scanVersion v2).isSome) :
    VerifyHash idKey password (joinDollar [f0, f1, v1, f3, f4, f5]) =
      VerifyHash idKey password (joinDollar [f0, f1, v2, f3, f4, f5]) ∧
    decodeHash (joinDollar [f0, f1, v1, f3, f4, f5]) ≠
      .error GoError.ErrIncompatibleArgon2Version := by
  have hsplit1 : splitOn 36 (joinDollar [f0, f1, v1, f3, f4, f5]) =
      [f0, f1, v1, f3, f4, f5] := by
    apply splitOn_joinDollar
    · simp
    · intro f hf
      simp only [List.mem_cons] at hf
      rcases hf with rfl | rfl | rfl | rfl | rfl | rfl | hf
      · exact h0
      · exact h1
      · exact hv1
      · exact h3
      · exact h4
      · exact h5
      · simp at hf
  have hsplit2 : splitOn 36 (joinDollar [f0, f1, v2, f3, f4, f5]) =
      [f0, f1, v2, f3, f4, f5] := by
    apply splitOn_joinDollar
    · simp
    · intro f hf
      simp only [List.mem_cons] at hf
      rcases hf with rfl | rfl | rfl | rfl | rfl | rfl | hf
      · exact h0
      · exact h1
      · exact hv2
      · exact h3
      · exact h4
      · exact h5
      · simp at hf
  have hd1 : decodeHash (joinDollar [f0, f1, v1, f3, f4, f5]) = decodeFields v1 f3 f4 f5 := by
    unfold decodeHash
    rw [hsplit1]
  have hd2 : decodeHash (joinDollar [f0, f1, v2, f3, f4, f5]) = decodeFields v2 f3 f4 f5 := by
    unfold decodeHash
    rw [hsplit2]
  obtain ⟨n1, he1⟩ := Option.isSome_iff_exists.mp hp1
  obtain ⟨n2, he2⟩ := Option.isSome_iff_exists.mp hp2
  have hfld : decodeFields v1 f3 f4 f5 = decodeFields v2 f3 f4 f5 := by
    unfold decodeFields
    rw [he1, he2]
  constructor
  · unfold VerifyHash
    rw [hd1, hd2, hfld]
  · rw [hd1]
    unfold decodeFields
    rw [he1]
    dsimp only
    cases hsp : scanParams f3 with
    | none => simp
    | some x =>
      obtain ⟨m, t, p⟩ := x
      dsimp only
      cases hd4 : decodeB64 f4 with
      | none => simp
      | some salt =>
        dsimp only
        cases hd5 : decodeB64 f5 with
        | none => simp
        | some hash => simp

/-- Witness for C9 at concrete fields with versions 19 and 18. -/
theorem c9_version_discarded_witness :
    VerifyHash toyKDF (ascii "pw")
      (joinDollar [[], ascii "argon2id", ascii "v=19", ascii "m=16,t=2,p=1",
        ascii "AAECAw==", ascii "YmRmaA=="]) =
      VerifyHash toyKDF (ascii "pw")
        (joinDollar [[], ascii "argon2id", ascii "v=18", ascii "m=16,t=2,p=1",
          ascii "AAECAw==", ascii "YmRmaA=="]) ∧
    decodeHash (joinDollar [[], ascii "argon2id", ascii "v=19", ascii "m=16,t=2,p=1",
      ascii "AAECAw==", ascii "YmRmaA=="]) ≠
      .error GoError.ErrIncompatibleArgon2Version :=
  c9_version_discarded toyKDF (ascii "pw") [] (ascii "argon2id") (ascii "v=19")
    (ascii "v=18") (ascii "m=16,t=2,p=1") (ascii "AAECAw==") (ascii "YmRmaA==")
    (by decide) (by decide) (by decide) (by decide) (by decide) (by decide) (by decide)
    (by decide) (by decide)

/-- C10: `decodeHash` performs no range validation on the parsed cost
parameters or decoded lengths — syntactically well-formed strings with
`t=0` (or `m=0,t=0,p=0`) decode successfully, `SaltLen`/`KeyLen` are set from
the decoded byte lengths, verification reaches the key-derivation call with
those out-of-range parameters, and the library derivation's panic guard
(`time < 1` or `threads < 1`) fires on them. -/
theorem c10_no_range_validation (idKey : KDF) (password : List Nat) :
    decodeHash (ascii "$argon2id$v=19$m=16,t=0,p=1$AQIDBA==$BQYHCA==") =
      .ok (⟨0, 16, 1, 4, 4⟩, [1, 2, 3, 4], [5, 6, 7, 8]) ∧
    decodeHash (ascii "$argon2id$v=19$m=0,t=0,p=0$AQIDBA==$BQYHCA==") =
      .ok (⟨0, 0, 0, 4, 4⟩, [1, 2, 3, 4], [5, 6, 7, 8]) ∧
    argon2PanicsOnParams 0 1 = true ∧
    VerifyHash idKey password (ascii "$argon2id$v=19$m=16,t=0,p=1$AQIDBA==$BQYHCA==") =
      (if constantTimeCompare [5, 6, 7, 8] (idKey password [1, 2, 3, 4] 0 16 1 4) = 1
        then (true, none) else (false, none)) := by
  refine ⟨by decide, by decide, by decide, ?_⟩
  unfold VerifyHash
  rw [show decodeHash (ascii "$argon2id$v=19$m=16,t=0,p=1$AQIDBA==$BQYHCA==") =
    .ok (⟨0, 16, 1, 4, 4⟩, [1, 2, 3, 4], [5, 6, 7, 8]) from by decide]

end Zenith
